import Mathlib

/-
Verification of the Preview repository (a static client that browses a remote
repository and renders hypertext files).  The JavaScript sources
(src/rewrite.js, src/main.js, src/api.js, src/ui.js) are shallowly embedded
below: JS strings are Lean `String`s, JS string primitives are modelled over
the underlying character list, objects are structures, the mutable
application state is threaded explicitly, and every awaited network call is
passed in as an `Except`-valued argument (the result the promise settled
with).  Platform primitives that are not part of the repository (the URL
constructor, DOMParser, URLSearchParams) are modelled from the design
document's description of them.
-/

namespace Preview

/-! ## JS string primitives, modelled over the character list -/

/-- JS `s.split(sep)` for a one-character separator. -/
def jsSplit (sep : Char) (s : String) : List String :=
  (s.data.splitOn sep).map (fun l => String.mk l)

/-- JS `parts.join('/')`. -/
def jsJoinSlash (ss : List String) : String :=
  String.mk (List.intercalate ['/'] (ss.map String.data))

/-- JS `s.startsWith(pre)`. -/
def jsStartsWith (s pre : String) : Bool :=
  pre.data.isPrefixOf s.data

/-- JS `s.endsWith('/')`. -/
def jsEndsWithSlash (s : String) : Bool :=
  s.data.getLast? == some '/'

/-- JS `s.slice(n)` / dropping the first `n` characters. -/
def jsDrop (s : String) (n : Nat) : String :=
  String.mk (s.data.drop n)

/-- JS `s.trim()`. -/
def jsTrim (s : String) : String :=
  String.mk (((s.data.dropWhile Char.isWhitespace).reverse.dropWhile Char.isWhitespace).reverse)

/-- JS `s.toLowerCase()` (ASCII part, which is all the sources compare). -/
def jsToLower (s : String) : String :=
  String.mk (s.data.map Char.toLower)

/-- JS `arr.pop() || ''` on the result of a split (last element, `""` when absent). -/
def jsLastSeg (sep : Char) (s : String) : String :=
  ((jsSplit sep s).getLast?).getD ""

/-- First-match lookup in an association list (JS object property read /
`Map.get` / `URLSearchParams.get`, all of which hold at most one binding
per key in the states this development builds). -/
def assocGet {α : Type} (ps : List (String × α)) (k : String) : Option α :=
  (ps.find? (fun p => p.1 = k)).map Prod.snd

/-- JS object property write: replace the binding if the key is present,
append it otherwise. -/
def setAssoc {α : Type} : List (String × α) → String → α → List (String × α)
  | [], k, v => [(k, v)]
  | (k', v') :: rest, k, v =>
    if k' = k then (k, v) :: rest else (k', v') :: setAssoc rest k v

/-! ## src/rewrite.js — Reference Classifier, Resolver, Document Rewriter -/

/-- `URL_ATTRS` from src/rewrite.js lines 6-14: element kind to the
attribute names that carry fetchable references. -/
def URL_ATTRS : List (String × List String) :=
  [("a", ["href"]),
   ("img", ["src"]),
   ("script", ["src"]),
   ("link", ["href"]),
   ("source", ["src"]),
   ("video", ["src", "poster"]),
   ("audio", ["src"])]

/-- `isAbsoluteOrSpecial` from src/rewrite.js lines 21-29.  The JS
`!url` guard for a string argument is the emptiness test; the non-string
case does not arise in the typed embedding. -/
def isAbsoluteOrSpecial (url : String) : Bool :=
  if url = "" then true
  else
    let t := jsTrim url
    if jsStartsWith t "http://" || jsStartsWith t "https://" then true
    else if jsStartsWith t "#" then true
    else if jsStartsWith t "data:" then true
    else if jsStartsWith t "mailto:" || jsStartsWith t "tel:" || jsStartsWith t "javascript:" then true
    else false

/-- Modelled from the spec: parsing of an absolute http/https location by the
platform URL constructor (scheme, host, path beginning with "/"); `none`
where the constructor would reject the base (no http/https scheme or an
empty host).  The repository itself contains no URL implementation. -/
def parseHttpUrl (u : String) : Option (String × String × String) :=
  let core :=
    if jsStartsWith u "http://" then some ("http", jsDrop u 7)
    else if jsStartsWith u "https://" then some ("https", jsDrop u 8)
    else none
  match core with
  | none => none
  | some (scheme, rest) =>
    match jsSplit '/' rest with
    | [] => none
    | host :: pathSegs =>
      if host = "" then none
      else some (scheme, host, "/" ++ jsJoinSlash pathSegs)

/-- One step of the standard remove-dot-segments path normalization:
pop one segment from the (reversed) output, never popping the root. -/
def popSeg (out : List String) : List String :=
  match out with
  | [] => []
  | [x] => [x]
  | _ :: rest => rest

/-- Remove-dot-segments over the segments of a path (accumulator reversed). -/
def rdsGo : List String → List String → List String
  | out, [] => out.reverse
  | out, [s] =>
    if s = "." then ("" :: out).reverse
    else if s = ".." then ("" :: popSeg out).reverse
    else (s :: out).reverse
  | out, s :: rest =>
    if s = "." then rdsGo out rest
    else if s = ".." then rdsGo (popSeg out) rest
    else rdsGo (s :: out) rest

/-- Modelled from the spec: the `.`/`..` normalization the platform URL
constructor applies to a path. -/
def removeDotSegments (p : String) : String :=
  jsJoinSlash (rdsGo [] (jsSplit '/' p))

/-- Split a string at the first occurrence of `c`; the second component
keeps `c` (empty when `c` is absent). -/
def splitFirst (c : Char) (s : String) : String × String :=
  (String.mk (s.data.takeWhile (fun x => x ≠ c)),
   String.mk (s.data.dropWhile (fun x => x ≠ c)))

/-- The directory of a path: everything up to and including the last "/". -/
def dirOfPath (p : String) : String :=
  jsJoinSlash ((jsSplit '/' p).dropLast) ++ "/"

/-- Modelled from the spec: `new URL(relative, base).href` — standard
relative-reference resolution against an absolute http/https base
(merge with the base directory, remove dot segments, keep query and
fragment); `none` models the constructor throwing. -/
def urlResolve (relative base : String) : Option String :=
  match parseHttpUrl base with
  | none => none
  | some (scheme, host, basePath0) =>
    let basePath := removeDotSegments basePath0
    if jsStartsWith relative "http://" || jsStartsWith relative "https://" then
      match parseHttpUrl relative with
      | none => none
      | some (s2, h2, p2) => some (s2 ++ "://" ++ h2 ++ removeDotSegments p2)
    else if jsStartsWith relative "#" then
      some (scheme ++ "://" ++ host ++ basePath ++ relative)
    else
      let pf := splitFirst '#' relative
      let pq := splitFirst '?' pf.1
      let pathPart := pq.1
      let tail := pq.2 ++ pf.2
      if jsStartsWith pathPart "//" then
        match parseHttpUrl (scheme ++ ":" ++ pathPart) with
        | none => none
        | some (s2, h2, p2) => some (s2 ++ "://" ++ h2 ++ removeDotSegments p2 ++ tail)
      else if jsStartsWith pathPart "/" then
        some (scheme ++ "://" ++ host ++ removeDotSegments pathPart ++ tail)
      else if pathPart = "" then
        some (scheme ++ "://" ++ host ++ basePath ++ tail)
      else
        some (scheme ++ "://" ++ host ++ removeDotSegments (dirOfPath basePath ++ pathPart) ++ tail)

/-- `resolveUrl` from src/rewrite.js lines 37-44: normalize the base to end
with "/", resolve, and fall back to the unchanged reference where the
URL constructor throws. -/
def resolveUrl (relative baseRawDirUrl : String) : String :=
  let base := if jsEndsWithSlash baseRawDirUrl then baseRawDirUrl else baseRawDirUrl ++ "/"
  match urlResolve relative base with
  | some u => u
  | none => relative

/-- A parsed element: tag name plus its attributes (unique keys, as in the
DOM). -/
structure Elem where
  tag : String
  attrs : List (String × String)
deriving DecidableEq, Repr

/-- DOM `el.getAttribute(a)`: `none` models `null`. -/
def Elem.getAttr (e : Elem) (a : String) : Option String :=
  assocGet e.attrs a

/-- DOM `el.setAttribute(a, v)`. -/
def Elem.setAttr (e : Elem) (a v : String) : Elem :=
  Elem.mk e.tag (setAssoc e.attrs a v)

/-- The body of the inner attribute loop of `rewriteDocument`
(src/rewrite.js lines 55-61): read the attribute, and replace it with the
resolver's output when it is present, non-empty and not special. -/
def rewriteAttr (base : String) (e : Elem) (attr : String) : Elem :=
  match e.getAttr attr with
  | none => e
  | some url =>
    if url ≠ "" ∧ isAbsoluteOrSpecial url = false then e.setAttr attr (resolveUrl url base)
    else e

/-- Processing of one registry entry for one element
(src/rewrite.js lines 53-62): `querySelectorAll` with the selector
`tag[attrs[0]]` only visits elements of the kind that carry the FIRST
listed attribute; each visited element then has every listed attribute
run through the classifier and rewritten. -/
def rewriteEntryElem (base tag : String) (attrs : List String) (e : Elem) : Elem :=
  if e.tag = tag ∧ (e.getAttr (attrs.headD "")).isSome then
    attrs.foldl (rewriteAttr base) e
  else e

/-- `rewriteDocument` from src/rewrite.js lines 51-64, over the flattened
element list of the parsed document (the rewrite touches attributes only,
so nesting is irrelevant to it). -/
def rewriteDocument (doc : List Elem) (base : String) : List Elem :=
  URL_ATTRS.foldl (fun d p => d.map (rewriteEntryElem base p.1 p.2)) doc

/-- Split at the first character satisfying / failing a predicate. -/
def takeWhileCh (p : Char → Bool) (cs : List Char) : List Char × List Char :=
  (cs.takeWhile p, cs.dropWhile p)

/-- Modelled from the spec: attribute scanning of the markup tokenizer
inside the platform DOMParser (total; best-effort repair on malformed
input; fuel bounds the recursion by the input length). -/
def parseAttrs : Nat → List Char → List (String × String) × List Char
  | 0, cs => ([], cs)
  | fuel+1, cs0 =>
    let cs := cs0.dropWhile Char.isWhitespace
    match cs with
    | [] => ([], [])
    | '>' :: rest => ([], rest)
    | '/' :: rest => parseAttrs fuel rest
    | _ =>
      let nm := (takeWhileCh (fun c => !(c.isWhitespace || c = '=' || c = '>' || c = '/')) cs).1
      let cs1 := (takeWhileCh (fun c => !(c.isWhitespace || c = '=' || c = '>' || c = '/')) cs).2
      if nm.isEmpty then parseAttrs fuel (cs.drop 1)
      else
        let cs2 := cs1.dropWhile Char.isWhitespace
        match cs2 with
        | '=' :: cs3 =>
          let cs4 := cs3.dropWhile Char.isWhitespace
          match cs4 with
          | '"' :: cs5 =>
            let v := (takeWhileCh (fun c => c ≠ '"') cs5).1
            let cs6 := (takeWhileCh (fun c => c ≠ '"') cs5).2
            let res := parseAttrs fuel (cs6.drop 1)
            ((String.mk nm, String.mk v) :: res.1, res.2)
          | _ =>
            let v := (takeWhileCh (fun c => !(c.isWhitespace || c = '>')) cs4).1
            let cs5 := (takeWhileCh (fun c => !(c.isWhitespace || c = '>')) cs4).2
            let res := parseAttrs fuel cs5
            ((String.mk nm, String.mk v) :: res.1, res.2)
        | _ =>
          let res := parseAttrs fuel cs2
          ((String.mk nm, "") :: res.1, res.2)

/-- Modelled from the spec: element scanning of the platform DOMParser,
flattened to the list of open tags with their attributes (the rewrite pass
only reads tags and attributes).  Total on every input. -/
def scanElems : Nat → List Char → List Elem
  | 0, _ => []
  | _+1, [] => []
  | fuel+1, '<' :: rest =>
    match rest with
    | [] => []
    | c :: _ =>
      if c.isAlpha then
        let nm := (takeWhileCh (fun x => x.isAlphanum) rest).1
        let cs1 := (takeWhileCh (fun x => x.isAlphanum) rest).2
        let res := parseAttrs (cs1.length + 1) cs1
        Elem.mk (jsToLower (String.mk nm)) res.1 :: scanElems fuel res.2
      else scanElems fuel rest
  | fuel+1, _ :: rest => scanElems fuel rest

/-- Modelled from the spec: `new DOMParser().parseFromString(htmlText,
'text/html')` — a safe parse that never throws and never executes
content, returning the (flattened) element tree. -/
def parseHtml (s : String) : List Elem :=
  scanElems (s.data.length + 1) s.data

/-- Serialization of one element (its open tag with attributes). -/
def serializeElem (e : Elem) : String :=
  "<" ++ e.tag ++ (e.attrs.foldl (fun acc p => acc ++ " " ++ p.1 ++ "=\x22" ++ p.2 ++ "\x22") "") ++ ">"

/-- Modelled from the spec: `doc.documentElement.outerHTML` — re-serialize
the tree to text. -/
def serializeDoc (doc : List Elem) : String :=
  doc.foldl (fun acc e => acc ++ serializeElem e) ""

/-- `rewriteHtml` from src/rewrite.js lines 72-77: parse, rewrite in place,
and re-serialize behind a standard doctype declaration. -/
def rewriteHtml (htmlText baseRawDirUrl : String) : String :=
  let doc := parseHtml htmlText
  let doc2 := rewriteDocument doc baseRawDirUrl
  "<!DOCTYPE html>\n" ++ serializeDoc doc2

/-! ## src/main.js — content caches, navigation state, routing -/

/-- One entry of a directory listing, as produced by `api.listContents`
(src/api.js lines 94-109). -/
structure ListingEntry where
  name : String
  path : String
  type : String
  download_url : Option String
deriving DecidableEq, Repr

/-- The `state` object of src/main.js lines 20-29.  `doLoadRepo` resets the
state to an object lacking the `previewPath` and `fileDates` keys; those
JS-`undefined` reads are modelled as `""` and `[]`, the falsy values the
rest of the code treats them as. -/
structure NavState where
  owner : String
  repo : String
  ref : String
  path : String
  previewPath : String
  listing : List ListingEntry
  fileDates : List (String × String)
  loaded : Bool
deriving DecidableEq, Repr

/-- `cacheKey` from src/main.js lines 16-18. -/
def cacheKey (owner repo path ref : String) : String :=
  owner ++ "/" ++ repo ++ ":" ++ ref ++ ":" ++ path

/-- The `get-or-fill` discipline shared by `loadRepoInfo`, `loadListing`
and `loadFileContent` (src/main.js lines 72-97): return the cached value
when present; otherwise run the producer, store its result under the key
on success, and store nothing on failure.  The producer argument is the
settled result of the awaited network call. -/
def getOrFill {α : Type} (cache : List (String × α)) (key : String)
    (produce : Except String α) : Except String α × List (String × α) :=
  match assocGet cache key with
  | some v => (Except.ok v, cache)
  | none =>
    match produce with
    | Except.ok v => (Except.ok v, cache ++ [(key, v)])
    | Except.error e => (Except.error e, cache)

/-- `loadListing` from src/main.js lines 81-88: the listing cache tier. -/
def loadListing (cache : List (String × List ListingEntry))
    (owner repo path ref : String) (produce : Except String (List ListingEntry)) :
    Except String (List ListingEntry) × List (String × List ListingEntry) :=
  getOrFill cache (cacheKey owner repo path ref) produce

/-- `loadFileContent` from src/main.js lines 90-97: the file-body cache tier. -/
def loadFileContent (cache : List (String × String))
    (owner repo path ref : String) (produce : Except String String) :
    Except String String × List (String × String) :=
  getOrFill cache (cacheKey owner repo path ref) produce

/-- `URLSearchParams.set`: replace the first binding of the key (dropping
any later duplicates), or append. -/
def qpSet : List (String × String) → String → String → List (String × String)
  | [], k, v => [(k, v)]
  | (k', v') :: rest, k, v =>
    if k' = k then (k, v) :: rest.filter (fun p => p.1 ≠ k)
    else (k', v') :: qpSet rest k v

/-- `URLSearchParams.delete`: drop every binding of the key. -/
def qpDelete (ps : List (String × String)) (k : String) : List (String × String) :=
  ps.filter (fun p => p.1 ≠ k)

/-- `applyStateToUrl` from src/main.js lines 41-50, acting on the query
parameters of the current location. -/
def applyStateToUrl (st : NavState) (ps : List (String × String)) : List (String × String) :=
  let p1 := if st.owner ≠ "" ∧ st.repo ≠ "" then qpSet ps "repo" (st.owner ++ "/" ++ st.repo)
            else qpDelete ps "repo"
  let p2 := if st.ref ≠ "" then qpSet p1 "ref" st.ref else qpDelete p1 "ref"
  if st.path ≠ "" then qpSet p2 "path" st.path else qpDelete p2 "path"

/-- The record returned by `parseQueryParams`. -/
structure ParsedParams where
  owner : String
  repo : String
  ref : String
  path : String
deriving DecidableEq, Repr

/-- `parseQueryParams` from src/main.js lines 52-70. -/
def parseQueryParams (ps : List (String × String)) : ParsedParams :=
  let repo := (assocGet ps "repo").getD ""
  let ref := (assocGet ps "ref").getD ""
  let path := (assocGet ps "path").getD ""
  if repo ≠ "" then
    let parts := (jsSplit '/' repo).filter (fun s => s ≠ "")
    if 2 ≤ parts.length then
      ParsedParams.mk (parts.headD "") (jsJoinSlash (parts.drop 1)) ref path
    else if parts.length = 1 then
      ParsedParams.mk (parts.headD "") "" ref path
    else ParsedParams.mk "" "" ref path
  else ParsedParams.mk "" "" ref path

/-- JS `e.message || 'Failed to load'` in the catch of `openPath`. -/
def jsErrMsg (e : String) : String :=
  if e = "" then "Failed to load" else e

/-- Modelled from the spec: the `Promise.all` batch of per-entry
`api.getLatestCommitDate` lookups in `openPath` (src/main.js lines
141-143).  `api.getLatestCommitDate` itself is the external per-path
metadata lookup the design document names; it is not defined under src/,
so it enters as the oracle `fetchDate`.  All lookups succeeding yields
the path-keyed pair list in listing order; any lookup failing fails the
whole batch. -/
def fetchDatesBatch (items : List ListingEntry) (fetchDate : String → Except String String) :
    Except String (List (String × String)) :=
  match items with
  | [] => Except.ok []
  | it :: rest =>
    match fetchDate it.path with
    | Except.error e => Except.error e
    | Except.ok d =>
      match fetchDatesBatch rest fetchDate with
      | Except.error e => Except.error e
      | Except.ok tail => Except.ok ((it.path, d) :: tail)

/-- `Object.fromEntries`: build an object from key/value pairs, a later
pair overwriting an earlier one with the same key. -/
def objFromEntries (entries : List (String × String)) : List (String × String) :=
  entries.foldl (fun m p => setAssoc m p.1 p.2) []

/-- The observable outcome of one navigation transition: the application
state, the synchronized query string, the error surfaced by
`ui.showError` (`none` when the transition left no error on screen), and
the entry list last handed to `ui.renderFileList` (`none` when the
transition rendered nothing). -/
structure OpenPathOut where
  state : NavState
  urlParams : List (String × String)
  surfacedError : Option String
  rendered : Option (List ListingEntry)
deriving DecidableEq, Repr

/-- `openPath` from src/main.js lines 131-153.  `fetchListing` is the
settled result of `loadListing` (cache or network) and `fetchDate` the
per-path metadata oracle.  Mirrors the source statement by statement:
the early return, the `path` write and URL sync before the fetch, the
listing write before the date batch, and the catch branch that surfaces
the error, empties `fileDates` and renders an empty list — without
touching `state.listing`. -/
def openPath (st : NavState) (ps : List (String × String)) (path : String)
    (fetchListing : Except String (List ListingEntry))
    (fetchDate : String → Except String String) : OpenPathOut :=
  if st.loaded = false ∨ st.owner = "" ∨ st.repo = "" then
    OpenPathOut.mk st ps none none
  else
    let st1 := { st with path := path }
    let ps1 := applyStateToUrl st1 ps
    match fetchListing with
    | Except.error e =>
      OpenPathOut.mk { st1 with fileDates := [] } ps1 (some (jsErrMsg e)) (some [])
    | Except.ok items =>
      let st2 := { st1 with listing := items }
      match fetchDatesBatch items fetchDate with
      | Except.error e =>
        OpenPathOut.mk { st2 with fileDates := [] } ps1 (some (jsErrMsg e)) (some [])
      | Except.ok entries =>
        OpenPathOut.mk { st2 with fileDates := objFromEntries entries } ps1 none (some items)

/-- The file-name / extension computation of `onSelect`
(src/main.js lines 168-169): `itemPath.split('/').pop() || ''`. -/
def fileNameOf (p : String) : String :=
  jsLastSeg '/' p

/-- `(name.split('.').pop() || '').toLowerCase()` applied to the file name
of a path. -/
def extOf (p : String) : String :=
  jsToLower (jsLastSeg '.' (fileNameOf p))

/-- The previewable-extension test on a bare name (ui.js `isHtmlFile`,
and the guard of `onSelect`). -/
def isHtmlName (name : String) : Bool :=
  jsToLower (jsLastSeg '.' name) = "html" || jsToLower (jsLastSeg '.' name) = "htm"

/-- `onSelect` from src/main.js lines 163-177: a directory delegates to
`openPath`; a file is rejected with a surfaced validation error unless
its extension is `html`/`htm`, and on success becomes `previewPath` with
the current listing re-rendered. -/
def onSelect (st : NavState) (ps : List (String × String)) (itemPath ty : String)
    (fetchListing : Except String (List ListingEntry))
    (fetchDate : String → Except String String) : OpenPathOut :=
  if ty = "dir" then openPath st ps itemPath fetchListing fetchDate
  else
    let ext := extOf itemPath
    if ext ≠ "html" ∧ ext ≠ "htm" then
      OpenPathOut.mk st ps (some "Only .html / .htm files can be previewed.") none
    else
      OpenPathOut.mk { st with previewPath := itemPath } ps none (some st.listing)

/-- The repository snapshot returned by `api.getRepoInfo`
(src/api.js lines 76-85), restricted to the field src/main.js reads. -/
structure RepoInfo where
  default_branch : String
deriving DecidableEq, Repr

/-- `doLoadRepo` from src/main.js lines 99-129.  `fetchInfo` is the settled
result of `loadRepoInfo`; an `Except.error` overall result models the
exception escaping `doLoadRepo` (its `try` has no catch), which leaves
the state untouched.  On success the state is reset to a fresh browsing
state at the root (the reset object omits `previewPath`/`fileDates`,
modelled as `""`/`[]`), the URL is synchronized, and `openPath ""` runs. -/
def doLoadRepo (st : NavState) (ps : List (String × String)) (input branchInput : String)
    (fetchInfo : Except String RepoInfo)
    (fetchListing : Except String (List ListingEntry))
    (fetchDate : String → Except String String) : Except String OpenPathOut :=
  let parts := ((jsSplit '/' input).map jsTrim).filter (fun s => s ≠ "")
  if parts.length < 2 then
    Except.ok (OpenPathOut.mk st ps (some "Enter owner/repo (e.g. adalenv/some-repo)") none)
  else
    match fetchInfo with
    | Except.error e => Except.error e
    | Except.ok info =>
      let owner := parts.headD ""
      let repo := jsJoinSlash (parts.drop 1)
      let ref := if branchInput ≠ "" then branchInput else info.default_branch
      let st1 := NavState.mk owner repo ref "" "" [] [] true
      let ps1 := applyStateToUrl st1 ps
      Except.ok (openPath st1 ps1 "" fetchListing fetchDate)

/-- The claimed navigation invariant, as the frozen claim states it:
a non-empty `previewPath` names a file-kind entry of the current listing
whose name has a previewable extension. -/
def navInvB (st : NavState) : Bool :=
  st.previewPath = "" ||
  st.listing.any (fun it =>
    it.path = st.previewPath && it.type = "file" && isHtmlName it.name)

/-- The part of the invariant the code does maintain: a non-empty
`previewPath` always has a previewable extension. -/
def extInvB (st : NavState) : Bool :=
  st.previewPath = "" || isHtmlName (fileNameOf st.previewPath)

/-! ## Association-list lemmas -/

theorem assocGet_cons {α : Type} (k : String) (w : α) (rest : List (String × α)) (key : String) :
    assocGet ((k, w) :: rest) key = if k = key then some w else assocGet rest key := by
  by_cases h : k = key <;> simp [assocGet, List.find?, h]

theorem assocGet_append_of_none {α : Type} (cache : List (String × α)) (key : String) (v : α)
    (h : assocGet cache key = none) : assocGet (cache ++ [(key, v)]) key = some v := by
  induction cache with
  | nil => simp [assocGet, List.find?]
  | cons p rest ih =>
    rw [List.cons_append]
    rw [show p = (p.1, p.2) from rfl] at h ⊢
    rw [assocGet_cons] at h ⊢
    by_cases hk : p.1 = key
    · simp [hk] at h
    · simp only [hk, if_false] at h ⊢
      exact ih h

theorem assocGet_setAssoc_same {α : Type} (m : List (String × α)) (k : String) (v : α) :
    assocGet (setAssoc m k v) k = some v := by
  induction m with
  | nil => simp [setAssoc, assocGet, List.find?]
  | cons p rest ih =>
    rw [show p = (p.1, p.2) from rfl, setAssoc]
    by_cases hk : p.1 = k
    · simp only [hk, if_true, assocGet_cons, if_pos rfl]
    · simp only [hk, if_false, assocGet_cons, ih]

theorem assocGet_setAssoc_other {α : Type} (m : List (String × α)) (k' k : String) (v : α)
    (h : k' ≠ k) : assocGet (setAssoc m k' v) k = assocGet m k := by
  induction m with
  | nil => simp [setAssoc, assocGet_cons, h]
  | cons p rest ih =>
    rw [show p = (p.1, p.2) from rfl, setAssoc]
    by_cases hk : p.1 = k'
    · simp only [hk, if_true, assocGet_cons, h, if_false]
    · simp only [hk, if_false, assocGet_cons, ih]

theorem assocGet_filter_ne {α : Type} (ps : List (String × α)) (k' k : String) (h : k' ≠ k) :
    assocGet (ps.filter (fun p => p.1 ≠ k')) k = assocGet ps k := by
  induction ps with
  | nil => rfl
  | cons p rest ih =>
    obtain ⟨pk, pv⟩ := p
    rw [List.filter_cons]
    simp only [decide_not] at ih ⊢
    by_cases hk : pk = k'
    · simp [hk, assocGet_cons, h, ih]
    · simp [hk, assocGet_cons, ih]

theorem assocGet_qpDelete_same (ps : List (String × String)) (k : String) :
    assocGet (qpDelete ps k) k = none := by
  induction ps with
  | nil => rfl
  | cons p rest ih =>
    obtain ⟨pk, pv⟩ := p
    rw [qpDelete, List.filter_cons]
    simp only [qpDelete, decide_not] at ih ⊢
    by_cases hk : pk = k
    · simpa [hk] using ih
    · simp [hk, assocGet_cons, ih]

theorem assocGet_qpDelete_other (ps : List (String × String)) (k' k : String) (h : k' ≠ k) :
    assocGet (qpDelete ps k') k = assocGet ps k :=
  assocGet_filter_ne ps k' k h

theorem assocGet_qpSet_same (ps : List (String × String)) (k : String) (v : String) :
    assocGet (qpSet ps k v) k = some v := by
  induction ps with
  | nil => simp [qpSet, assocGet_cons]
  | cons p rest ih =>
    rw [show p = (p.1, p.2) from rfl, qpSet]
    by_cases hk : p.1 = k
    · simp only [hk, if_true, assocGet_cons, if_pos rfl]
    · simp only [hk, if_false, assocGet_cons, ih]

theorem assocGet_qpSet_other (ps : List (String × String)) (k' k : String) (v : String)
    (h : k' ≠ k) : assocGet (qpSet ps k' v) k = assocGet ps k := by
  induction ps with
  | nil => simp [qpSet, assocGet_cons, h]
  | cons p rest ih =>
    rw [show p = (p.1, p.2) from rfl, qpSet]
    by_cases hk : p.1 = k'
    · simp only [hk, if_true, assocGet_cons, h, if_false]
      exact assocGet_filter_ne rest k' k h
    · simp only [hk, if_false, assocGet_cons, ih]

/-! ## String and query-parameter lemmas -/

theorem intercalate_cons_ne_nil {α : Type} (s a : List α) (rest : List (List α)) (h : rest ≠ []) :
    List.intercalate s (a :: rest) = a ++ s ++ List.intercalate s rest := by
  cases rest with
  | nil => exact absurd rfl h
  | cons b tail => simp [List.intercalate, List.intersperse_cons_cons, List.append_assoc]

theorem strDataAppend (a b : String) : (a ++ b).data = a.data ++ b.data := by
  cases a; cases b; rfl

theorem strMkData (s : String) : String.mk s.data = s := by cases s; rfl

theorem strMkNeEmpty (l : List Char) (h : l ≠ []) : String.mk l ≠ "" := by
  intro hc
  exact h (congrArg String.data hc)

theorem strDataNeNil (s : String) (h : s ≠ "") : s.data ≠ [] := by
  intro hd
  apply h
  cases s with
  | mk d => cases hd; rfl

theorem strDataMk (l : List Char) : (String.mk l).data = l := rfl

theorem strNeEmptyOfDataNeNil (s : String) (h : s.data ≠ []) : s ≠ "" := fun hc =>
  h (congrArg String.data hc)

theorem getD_if_none_some (c : Prop) [Decidable c] (x : String) (h : c → x = "") :
    (if c then (none : Option String) else some x).getD "" = x := by
  by_cases hc : c
  · simp [hc, h hc]
  · simp [hc]

theorem intercalate_ne_nil (segs : List (List Char)) (hsegs : segs ≠ [])
    (hne : ∀ l ∈ segs, l ≠ []) : List.intercalate ['/'] segs ≠ [] := by
  cases segs with
  | nil => exact absurd rfl hsegs
  | cons l ls =>
    cases ls with
    | nil => simpa [List.intercalate] using hne l (List.mem_cons_self l [])
    | cons l2 ls2 =>
      rw [intercalate_cons_ne_nil _ _ _ (by simp)]
      simp

theorem assocGet_apply_repo (st : NavState) (ps : List (String × String))
    (ho : st.owner ≠ "") (hr : st.repo ≠ "") :
    assocGet (applyStateToUrl st ps) "repo" = some (st.owner ++ "/" ++ st.repo) := by
  unfold applyStateToUrl
  simp only []
  have e1 : ("ref" : String) ≠ "repo" := by decide
  have e2 : ("path" : String) ≠ "repo" := by decide
  have hor : st.owner ≠ "" ∧ st.repo ≠ "" := ⟨ho, hr⟩
  by_cases h2 : st.path ≠ ""
  · rw [if_pos h2, assocGet_qpSet_other _ _ _ _ e2]
    by_cases h1 : st.ref ≠ ""
    · rw [if_pos h1, assocGet_qpSet_other _ _ _ _ e1, if_pos hor, assocGet_qpSet_same]
    · rw [if_neg h1, assocGet_qpDelete_other _ _ _ e1, if_pos hor, assocGet_qpSet_same]
  · rw [if_neg h2, assocGet_qpDelete_other _ _ _ e2]
    by_cases h1 : st.ref ≠ ""
    · rw [if_pos h1, assocGet_qpSet_other _ _ _ _ e1, if_pos hor, assocGet_qpSet_same]
    · rw [if_neg h1, assocGet_qpDelete_other _ _ _ e1, if_pos hor, assocGet_qpSet_same]

theorem assocGet_apply_path (st : NavState) (ps : List (String × String)) :
    assocGet (applyStateToUrl st ps) "path"
      = if st.path = "" then none else some st.path := by
  unfold applyStateToUrl
  simp only []
  by_cases h2 : st.path ≠ ""
  · rw [if_pos h2, assocGet_qpSet_same, if_neg h2]
  · rw [if_neg h2, assocGet_qpDelete_same, if_pos (not_not.mp h2)]

theorem assocGet_apply_ref (st : NavState) (ps : List (String × String)) :
    assocGet (applyStateToUrl st ps) "ref"
      = if st.ref = "" then none else some st.ref := by
  unfold applyStateToUrl
  simp only []
  have e2 : ("path" : String) ≠ "ref" := by decide
  by_cases h2 : st.path ≠ ""
  · rw [if_pos h2, assocGet_qpSet_other _ _ _ _ e2]
    by_cases h1 : st.ref ≠ ""
    · rw [if_pos h1, assocGet_qpSet_same, if_neg h1]
    · rw [if_neg h1, assocGet_qpDelete_same, if_pos (not_not.mp h1)]
  · rw [if_neg h2, assocGet_qpDelete_other _ _ _ e2]
    by_cases h1 : st.ref ≠ ""
    · rw [if_pos h1, assocGet_qpSet_same, if_neg h1]
    · rw [if_neg h1, assocGet_qpDelete_same, if_pos (not_not.mp h1)]

/-! ## Theorems -/

theorem getAttr_setAttr_ne (e : Elem) (b a v : String) (h : b ≠ a) :
    (e.setAttr b v).getAttr a = e.getAttr a := by
  unfold Elem.setAttr Elem.getAttr
  exact assocGet_setAssoc_other e.attrs b a v h

theorem rewriteAttr_preserves_special (base : String) (e : Elem) (b a url : String)
    (hget : e.getAttr a = some url) (hsp : isAbsoluteOrSpecial url = true) :
    (rewriteAttr base e b).getAttr a = some url := by
  unfold rewriteAttr
  cases hb : e.getAttr b with
  | none => exact hget
  | some u =>
    by_cases hba : b = a
    · subst hba
      rw [hget] at hb
      injection hb with hu
      subst hu
      simp [hsp, hget]
    · dsimp only
      by_cases hc : u ≠ "" ∧ isAbsoluteOrSpecial u = false
      · rw [if_pos hc, getAttr_setAttr_ne e b a _ hba]
        exact hget
      · rw [if_neg hc]
        exact hget

theorem foldl_rewriteAttr_preserves_special (base : String) (attrs : List String) (e : Elem)
    (a url : String) (hget : e.getAttr a = some url) (hsp : isAbsoluteOrSpecial url = true) :
    (attrs.foldl (rewriteAttr base) e).getAttr a = some url := by
  induction attrs generalizing e with
  | nil => exact hget
  | cons b rest ih =>
    rw [List.foldl_cons]
    exact ih (rewriteAttr base e b) (rewriteAttr_preserves_special base e b a url hget hsp)

theorem rewriteEntryElem_preserves_special (base tag : String) (attrs : List String) (e : Elem)
    (a url : String) (hget : e.getAttr a = some url) (hsp : isAbsoluteOrSpecial url = true) :
    (rewriteEntryElem base tag attrs e).getAttr a = some url := by
  unfold rewriteEntryElem
  split
  · exact foldl_rewriteAttr_preserves_special base attrs e a url hget hsp
  · exact hget

theorem foldl_map_preserves_special (ps : List (String × List String)) (base : String) :
    ∀ (d : List Elem) (i : Nat) (h : i < d.length) (a url : String),
    (d.get ⟨i, h⟩).getAttr a = some url → isAbsoluteOrSpecial url = true →
    ∃ h2 : i < (ps.foldl (fun d p => d.map (rewriteEntryElem base p.1 p.2)) d).length,
      ((ps.foldl (fun d p => d.map (rewriteEntryElem base p.1 p.2)) d).get ⟨i, h2⟩).getAttr a
        = some url := by
  induction ps with
  | nil =>
    intro d i h a url hget _
    exact ⟨h, hget⟩
  | cons p rest ih =>
    intro d i h a url hget hsp
    rw [List.foldl_cons]
    have h' : i < (d.map (rewriteEntryElem base p.1 p.2)).length := by
      simpa using h
    have hmap : (d.map (rewriteEntryElem base p.1 p.2)).get ⟨i, h'⟩
        = rewriteEntryElem base p.1 p.2 (d.get ⟨i, h⟩) := by
      simp [List.get_eq_getElem]
    have hget' : ((d.map (rewriteEntryElem base p.1 p.2)).get ⟨i, h'⟩).getAttr a = some url := by
      rw [hmap]
      exact rewriteEntryElem_preserves_special base p.1 p.2 (d.get ⟨i, h⟩) a url hget hsp
    exact ih (d.map (rewriteEntryElem base p.1 p.2)) i h' a url hget' hsp

/-- C10: the Classifier's absolute-scheme test is a case-sensitive
lowercase literal match: uppercase or mixed-case schemes such as
`HTTP://host/x`, and protocol-relative references beginning with `//`,
are classified as rewritable (`false`), while the lowercase schemes are
left untouched (`true`). -/
theorem c10_classifier_case_sensitive_lowercase_match :
    isAbsoluteOrSpecial "HTTP://host/x" = false
    ∧ isAbsoluteOrSpecial "Http://host/x" = false
    ∧ isAbsoluteOrSpecial "HTTPS://host/x" = false
    ∧ isAbsoluteOrSpecial "//host/x" = false
    ∧ isAbsoluteOrSpecial "http://host/x" = true
    ∧ isAbsoluteOrSpecial "https://host/x" = true := by
  decide

/-- C4: the failing input for the Document Rewriter's attribute registry.
The reference `img/p.png` is rewritable and the Resolver would resolve
it, and on a video element carrying both `src` and `poster` both are
rewritten — but a video element that has `poster` and no `src` is never
visited (the selector is `video[src]`, built from the first registered
attribute only), so its poster is left unchanged, contradicting the
claim that every listed attribute present and non-empty is examined. -/
theorem c4_video_poster_without_src_not_rewritten :
    isAbsoluteOrSpecial "img/p.png" = false
    ∧ resolveUrl "img/p.png" "https://h/o/r/m/d" = "https://h/o/r/m/d/img/p.png"
    ∧ rewriteDocument [Elem.mk "video" [("poster", "img/p.png")]] "https://h/o/r/m/d"
        = [Elem.mk "video" [("poster", "img/p.png")]]
    ∧ rewriteDocument [Elem.mk "video" [("src", "v.mp4"), ("poster", "img/p.png")]] "https://h/o/r/m/d"
        = [Elem.mk "video" [("src", "https://h/o/r/m/d/v.mp4"),
                            ("poster", "https://h/o/r/m/d/img/p.png")]] := by
  decide

/-- C8: for every input string and base — the parse being total even on
malformed fragments — the Document Rewriter returns a string that starts
with the standard doctype declaration. -/
theorem c8_rewriteHtml_starts_with_doctype (htmlText baseRawDirUrl : String) :
    ∃ rest, rewriteHtml htmlText baseRawDirUrl = "<!DOCTYPE html>\n" ++ rest :=
  ⟨serializeDoc (rewriteDocument (parseHtml htmlText) baseRawDirUrl), rfl⟩

/-- C5: `resolveUrl r b` resolves `r` against `b` with a trailing
separator appended to `b` when absent; the spec's concrete example holds;
and when resolution fails the original reference is returned unchanged
rather than raising. -/
theorem c5_resolveUrl_base_normalization_and_fallback :
    (∀ r b, jsEndsWithSlash b = false → resolveUrl r b = (urlResolve r (b ++ "/")).getD r)
    ∧ (∀ r b, jsEndsWithSlash b = true → resolveUrl r b = (urlResolve r b).getD r)
    ∧ resolveUrl "../x.css" "https://h/o/r/ref/dir" = "https://h/o/r/ref/x.css"
    ∧ (∀ r b, urlResolve r (if jsEndsWithSlash b then b else b ++ "/") = none →
        resolveUrl r b = r) := by
  refine ⟨?_, ?_, by decide, ?_⟩
  · intro r b h
    unfold resolveUrl
    simp only [h, Bool.false_eq_true, if_false]
    cases urlResolve r (b ++ "/") <;> rfl
  · intro r b h
    unfold resolveUrl
    simp only [h, if_true]
    cases urlResolve r b <;> rfl
  · intro r b h
    unfold resolveUrl
    simp only []
    rw [h]

/-- Witness for C5 at concrete inputs: a base without the separator, a
base with it, and a malformed base on which resolution fails and the
reference comes back unchanged. -/
theorem c5_witness :
    jsEndsWithSlash "https://h/d" = false
    ∧ resolveUrl "a" "https://h/d" = (urlResolve "a" ("https://h/d" ++ "/")).getD "a"
    ∧ jsEndsWithSlash "https://h/d/" = true
    ∧ resolveUrl "a" "https://h/d/" = (urlResolve "a" "https://h/d/").getD "a"
    ∧ urlResolve "x" (if jsEndsWithSlash "notaurl" then "notaurl" else "notaurl" ++ "/") = none
    ∧ resolveUrl "x" "notaurl" = "x" :=
  ⟨by decide,
   c5_resolveUrl_base_normalization_and_fallback.1 "a" "https://h/d" (by decide),
   by decide,
   c5_resolveUrl_base_normalization_and_fallback.2.1 "a" "https://h/d/" (by decide),
   by decide,
   c5_resolveUrl_base_normalization_and_fallback.2.2.2 "x" "notaurl" (by decide)⟩

/-- C6: every attribute value the Classifier marks special — empty,
absolute `http`/`https` location, in-page anchor, `data:` payload, or
`mailto:`/`tel:`/`javascript:` scheme — is left byte-for-byte unchanged
by the Document Rewriter, at every position of the document and for
every attribute name. -/
theorem c6_rewriter_leaves_special_unchanged (doc : List Elem) (base : String) (i : Nat)
    (a url : String) (h : i < doc.length)
    (hget : (doc.get ⟨i, h⟩).getAttr a = some url)
    (hsp : isAbsoluteOrSpecial url = true) :
    ∃ h2 : i < (rewriteDocument doc base).length,
      ((rewriteDocument doc base).get ⟨i, h2⟩).getAttr a = some url := by
  unfold rewriteDocument
  exact foldl_map_preserves_special URL_ATTRS base doc i h a url hget hsp

/-- Witness for C6: an in-page anchor on an anchor element survives the
rewrite unchanged. -/
theorem c6_witness :
    ∃ h2 : 0 < (rewriteDocument [Elem.mk "a" [("href", "#frag")]] "https://h/d").length,
      ((rewriteDocument [Elem.mk "a" [("href", "#frag")]] "https://h/d").get ⟨0, h2⟩).getAttr "href"
        = some "#frag" :=
  c6_rewriter_leaves_special_unchanged [Elem.mk "a" [("href", "#frag")]] "https://h/d" 0
    "href" "#frag" (by decide) (by decide) (by decide)

/-- C7: for every cache tier run on the `get-or-fill` discipline and every
key, a second call after a first call whose producer resolved returns the
stored value and state without consulting its own producer; a failed
producer propagates its error and stores nothing; and after a failure the
next call behaves exactly as a fresh miss. -/
theorem c7_cache_get_or_fill {α : Type} :
    (∀ (cache : List (String × α)) (key : String) (v : α) (produce2 : Except String α),
       getOrFill ((getOrFill cache key (Except.ok v)).2) key produce2
         = ((getOrFill cache key (Except.ok v)).1, (getOrFill cache key (Except.ok v)).2))
    ∧ (∀ (cache : List (String × α)) (key : String) (e : String),
         assocGet cache key = none →
         getOrFill cache key (Except.error e) = (Except.error e, cache))
    ∧ (∀ (cache : List (String × α)) (key : String) (e : String) (produce2 : Except String α),
         assocGet cache key = none →
         getOrFill ((getOrFill cache key (Except.error e)).2) key produce2
           = getOrFill cache key produce2) := by
  refine ⟨?_, ?_, ?_⟩
  · intro cache key v p2
    unfold getOrFill
    cases h : assocGet cache key with
    | some w => simp [h]
    | none => simp [h, assocGet_append_of_none cache key v h]
  · intro cache key e h
    unfold getOrFill
    rw [h]
  · intro cache key e p2 h
    have h2 : getOrFill cache key (Except.error e) = (Except.error e, cache) := by
      unfold getOrFill
      rw [h]
    rw [h2]

theorem fetchDatesBatch_ok (items : List ListingEntry) (f : String → Except String String)
    (hok : ∀ it ∈ items, ∃ d, f it.path = Except.ok d) :
    fetchDatesBatch items f
      = Except.ok (items.map (fun it => (it.path, ((f it.path).toOption).getD ""))) := by
  induction items with
  | nil => rfl
  | cons it rest ih =>
    obtain ⟨d, hd⟩ := hok it (List.mem_cons_self it rest)
    rw [fetchDatesBatch, hd, ih (fun x hx => hok x (List.mem_cons_of_mem _ hx))]
    simp [hd, Except.toOption]

theorem assocGet_foldl_setAssoc (g : String → String) :
    ∀ (entries : List (String × String)) (m : List (String × String)) (p : String),
    (∀ pr ∈ entries, pr.2 = g pr.1) →
    ((p, g p) ∈ entries ∨ assocGet m p = some (g p)) →
    assocGet (entries.foldl (fun m pr => setAssoc m pr.1 pr.2) m) p = some (g p) := by
  intro entries
  induction entries with
  | nil =>
    intro m p _ hin
    rcases hin with h | h
    · cases h
    · exact h
  | cons pr rest ih =>
    intro m p hval hin
    rw [List.foldl_cons]
    apply ih (setAssoc m pr.1 pr.2) p (fun q hq => hval q (List.mem_cons_of_mem _ hq))
    by_cases hp : pr.1 = p
    · right
      have hv : pr.2 = g pr.1 := hval pr (List.mem_cons_self _ _)
      rw [← hp, assocGet_setAssoc_same, hv]
    · rcases hin with h | h
      · rcases List.mem_cons.mp h with heq | hmem
        · exact absurd (congrArg Prod.fst heq.symm) hp
        · exact Or.inl hmem
      · right
        rw [assocGet_setAssoc_other _ _ _ _ hp]
        exact h

/-- C1: whenever the listing fetch of `open-path` succeeds and every
per-entry metadata lookup resolves, the controller exposes the results
keyed by entry path: `state.fileDates` maps each listed entry's path to
the indicator the external lookup returned for that path. -/
theorem c1_openPath_fileDates_keyed_by_path (st : NavState) (ps : List (String × String))
    (path : String) (items : List ListingEntry) (fetchDate : String → Except String String)
    (hl : st.loaded = true) (ho : st.owner ≠ "") (hr : st.repo ≠ "")
    (hok : ∀ it ∈ items, ∃ d, fetchDate it.path = Except.ok d) :
    ∀ it ∈ items,
      assocGet (openPath st ps path (Except.ok items) fetchDate).state.fileDates it.path
        = (fetchDate it.path).toOption := by
  intro it hit
  have hguard : ¬(st.loaded = false ∨ st.owner = "" ∨ st.repo = "") := by
    simp [hl, ho, hr]
  unfold openPath
  rw [if_neg hguard]
  simp only []
  rw [fetchDatesBatch_ok items fetchDate hok]
  simp only [objFromEntries]
  obtain ⟨d, hd⟩ := hok it hit
  have hval : ∀ pr ∈ items.map (fun j => (j.path, ((fetchDate j.path).toOption).getD "")),
      pr.2 = (fun q => ((fetchDate q).toOption).getD "") pr.1 := by
    intro pr hpr
    obtain ⟨j, _, hjeq⟩ := List.mem_map.mp hpr
    rw [← hjeq]
  have hmem : (it.path, ((fetchDate it.path).toOption).getD "")
      ∈ items.map (fun j => (j.path, ((fetchDate j.path).toOption).getD "")) :=
    List.mem_map_of_mem _ hit
  have hlook := assocGet_foldl_setAssoc (fun q => ((fetchDate q).toOption).getD "")
    (items.map (fun j => (j.path, ((fetchDate j.path).toOption).getD ""))) [] it.path
    hval (Or.inl hmem)
  simp only [] at hlook
  rw [hd] at hlook
  rw [hd]
  simpa [Except.toOption] using hlook

/-- Witness for C1: a two-entry listing whose dates both resolve ends up
with `fileDates` mapping the second entry's path to its indicator. -/
theorem c1_witness :
    (NavState.mk "o" "r" "m" "" "" [] [] true).loaded = true
    ∧ (∀ it ∈ [ListingEntry.mk "a" "a" "dir" none, ListingEntry.mk "b.html" "b.html" "file" none],
        ∃ d, (fun p => Except.ok (p ++ "-date") : String → Except String String) it.path
          = Except.ok d)
    ∧ ListingEntry.mk "b.html" "b.html" "file" none
        ∈ [ListingEntry.mk "a" "a" "dir" none, ListingEntry.mk "b.html" "b.html" "file" none]
    ∧ assocGet (openPath (NavState.mk "o" "r" "m" "" "" [] [] true) [] ""
        (Except.ok [ListingEntry.mk "a" "a" "dir" none,
                    ListingEntry.mk "b.html" "b.html" "file" none])
        (fun p => Except.ok (p ++ "-date"))).state.fileDates "b.html"
      = ((fun p => Except.ok (p ++ "-date") : String → Except String String) "b.html").toOption :=
  ⟨by decide,
   fun it _ => ⟨it.path ++ "-date", rfl⟩,
   by decide,
   c1_openPath_fileDates_keyed_by_path (NavState.mk "o" "r" "m" "" "" [] [] true) [] ""
     [ListingEntry.mk "a" "a" "dir" none, ListingEntry.mk "b.html" "b.html" "file" none]
     (fun p => Except.ok (p ++ "-date")) (by decide) (by decide) (by decide)
     (fun it _ => ⟨it.path ++ "-date", rfl⟩)
     (ListingEntry.mk "b.html" "b.html" "file" none) (by decide)⟩

/-- C2 counterexample: an `open-path` whose listing fetch fails surfaces
the error and keeps the attempted destination, but `NavigationState.listing`
is NOT replaced with the empty set — it still holds the previous path's
entries, contradicting the claim. -/
theorem c2_counterexample :
    (openPath
        (NavState.mk "o" "r" "m" "" "" [ListingEntry.mk "a.html" "a.html" "file" none] [] true)
        [] "src" (Except.error "boom") (fun _ => Except.ok "d")).state.listing
      = [ListingEntry.mk "a.html" "a.html" "file" none]
    ∧ (openPath
        (NavState.mk "o" "r" "m" "" "" [ListingEntry.mk "a.html" "a.html" "file" none] [] true)
        [] "src" (Except.error "boom") (fun _ => Except.ok "d")).state.listing ≠ [] := by
  decide

/-- C2 as amended: on a failed listing fetch `open-path` surfaces the
error, `path` and the URL keep the attempted destination, `fileDates` is
reset and an empty list is rendered — but `NavigationState.listing` keeps
its previous value (it is never undefined; it is simply not cleared). -/
theorem c2_openPath_failure_behavior (st : NavState) (ps : List (String × String))
    (path e : String) (fetchDate : String → Except String String)
    (hl : st.loaded = true) (ho : st.owner ≠ "") (hr : st.repo ≠ "") :
    (openPath st ps path (Except.error e) fetchDate).surfacedError = some (jsErrMsg e)
    ∧ (openPath st ps path (Except.error e) fetchDate).state.path = path
    ∧ assocGet (openPath st ps path (Except.error e) fetchDate).urlParams "path"
        = (if path = "" then none else some path)
    ∧ (openPath st ps path (Except.error e) fetchDate).state.fileDates = []
    ∧ (openPath st ps path (Except.error e) fetchDate).rendered = some []
    ∧ (openPath st ps path (Except.error e) fetchDate).state.listing = st.listing := by
  have hguard : ¬(st.loaded = false ∨ st.owner = "" ∨ st.repo = "") := by
    simp [hl, ho, hr]
  unfold openPath
  rw [if_neg hguard]
  refine ⟨?_, ?_, ?_, ?_, ?_, ?_⟩ <;>
    first
      | exact assocGet_apply_path { st with path := path } ps
      | rfl

/-- Witness for C2's amended theorem at a concrete failed navigation. -/
theorem c2_witness :
    (openPath (NavState.mk "o" "r" "m" "" "" [] [] true) [] "src" (Except.error "boom")
        (fun _ => Except.ok "d")).surfacedError = some (jsErrMsg "boom")
    ∧ (openPath (NavState.mk "o" "r" "m" "" "" [] [] true) [] "src" (Except.error "boom")
        (fun _ => Except.ok "d")).state.path = "src"
    ∧ assocGet (openPath (NavState.mk "o" "r" "m" "" "" [] [] true) [] "src"
        (Except.error "boom") (fun _ => Except.ok "d")).urlParams "path"
        = (if "src" = "" then none else some "src")
    ∧ (openPath (NavState.mk "o" "r" "m" "" "" [] [] true) [] "src" (Except.error "boom")
        (fun _ => Except.ok "d")).state.fileDates = []
    ∧ (openPath (NavState.mk "o" "r" "m" "" "" [] [] true) [] "src" (Except.error "boom")
        (fun _ => Except.ok "d")).rendered = some []
    ∧ (openPath (NavState.mk "o" "r" "m" "" "" [] [] true) [] "src" (Except.error "boom")
        (fun _ => Except.ok "d")).state.listing
        = (NavState.mk "o" "r" "m" "" "" [] [] true).listing :=
  c2_openPath_failure_behavior (NavState.mk "o" "r" "m" "" "" [] [] true) [] "src" "boom"
    (fun _ => Except.ok "d") (by decide) (by decide) (by decide)

theorem openPath_previewPath (st : NavState) (ps : List (String × String)) (path : String)
    (fetchListing : Except String (List ListingEntry))
    (fetchDate : String → Except String String) :
    (openPath st ps path fetchListing fetchDate).state.previewPath = st.previewPath := by
  unfold openPath
  by_cases h : st.loaded = false ∨ st.owner = "" ∨ st.repo = ""
  · rw [if_pos h]
  · rw [if_neg h]
    cases fetchListing with
    | error e => rfl
    | ok items =>
      simp only []
      cases fetchDatesBatch items fetchDate with
      | error e => rfl
      | ok entries => rfl

theorem extInvB_of_previewPath_eq (st1 st2 : NavState)
    (h : st1.previewPath = st2.previewPath) : extInvB st1 = extInvB st2 := by
  unfold extInvB
  rw [h]

/-- C3 counterexample: the claimed invariant holds of a state previewing
`index.html` from the root listing, and is broken by the very next
`open-path` into a subdirectory — the new listing no longer contains the
entry `previewPath` denotes, yet `previewPath` is not cleared. -/
theorem c3_counterexample :
    navInvB (NavState.mk "o" "r" "m" "" "index.html"
        [ListingEntry.mk "index.html" "index.html" "file" none] [] true) = true
    ∧ navInvB (openPath
        (NavState.mk "o" "r" "m" "" "index.html"
          [ListingEntry.mk "index.html" "index.html" "file" none] [] true)
        [] "src" (Except.ok [ListingEntry.mk "a.txt" "src/a.txt" "file" none])
        (fun _ => Except.ok "d")).state = false := by
  decide

/-- C3 as amended: every transition preserves the extension half of the
invariant — a non-empty `previewPath` always carries a previewable
(`html`/`htm`, case-insensitive) extension — while membership in the
last-loaded listing is not maintained. -/
theorem c3_previewPath_extension_invariant (st : NavState) (ps : List (String × String)) :
    (∀ (path : String) (fL : Except String (List ListingEntry))
        (fD : String → Except String String),
      extInvB st = true → extInvB (openPath st ps path fL fD).state = true)
    ∧ (∀ (itemPath ty : String) (fL : Except String (List ListingEntry))
        (fD : String → Except String String),
      extInvB st = true → extInvB (onSelect st ps itemPath ty fL fD).state = true)
    ∧ (∀ (input branchInput : String) (fI : Except String RepoInfo)
        (fL : Except String (List ListingEntry)) (fD : String → Except String String)
        (out : OpenPathOut),
      extInvB st = true → doLoadRepo st ps input branchInput fI fL fD = Except.ok out →
      extInvB out.state = true) := by
  refine ⟨?_, ?_, ?_⟩
  · intro path fL fD hinv
    rw [extInvB_of_previewPath_eq _ st (openPath_previewPath st ps path fL fD)]
    exact hinv
  · intro itemPath ty fL fD hinv
    unfold onSelect
    by_cases hd : ty = "dir"
    · rw [if_pos hd]
      rw [extInvB_of_previewPath_eq _ st (openPath_previewPath st ps itemPath fL fD)]
      exact hinv
    · rw [if_neg hd]
      simp only []
      by_cases hext : extOf itemPath ≠ "html" ∧ extOf itemPath ≠ "htm"
      · rw [if_pos hext]
        exact hinv
      · rw [if_neg hext]
        have hdisj : extOf itemPath = "html" ∨ extOf itemPath = "htm" := by
          by_cases h1 : extOf itemPath = "html"
          · exact Or.inl h1
          · right
            by_contra h2
            exact hext ⟨h1, h2⟩
        unfold extInvB isHtmlName
        simp only []
        rcases hdisj with h1 | h1 <;>
          · unfold extOf at h1
            simp [h1]
  · intro input branchInput fI fL fD out hinv hout
    unfold doLoadRepo at hout
    simp only [] at hout
    by_cases hp : (List.filter (fun s => s ≠ "") (List.map jsTrim (jsSplit '/' input))).length < 2
    · rw [if_pos hp] at hout
      injection hout with hout
      rw [← hout]
      exact hinv
    · rw [if_neg hp] at hout
      cases fI with
      | error e => cases hout
      | ok info =>
        simp only [] at hout
        injection hout with hout
        rw [← hout]
        rw [extInvB_of_previewPath_eq _
          (NavState.mk ((List.filter (fun s => s ≠ "") (List.map jsTrim (jsSplit '/' input))).headD "")
            (jsJoinSlash ((List.filter (fun s => s ≠ "") (List.map jsTrim (jsSplit '/' input))).drop 1))
            (if branchInput ≠ "" then branchInput else info.default_branch) "" "" [] [] true)
          (openPath_previewPath _ _ _ _ _)]
        rfl

/-- Witness for C3's amended theorem: selecting a mixed-case `.HTML` file
establishes and preserves the extension invariant. -/
theorem c3_witness :
    extInvB (NavState.mk "o" "r" "m" "" "" [] [] true) = true
    ∧ extInvB (onSelect (NavState.mk "o" "r" "m" "" "" [] [] true) [] "x/Index.HTML" "file"
        (Except.error "e") (fun _ => Except.ok "")).state = true :=
  ⟨by decide,
   (c3_previewPath_extension_invariant (NavState.mk "o" "r" "m" "" "" [] [] true) []).2.1
     "x/Index.HTML" "file" (Except.error "e") (fun _ => Except.ok "") (by decide)⟩

/-- C9 counterexample: a NavigationState with non-empty owner and repo
whose repo holds an empty path segment (`b//c`) does not round-trip: the
parser drops empty segments, so the decoded repo is `b/c`. -/
theorem c9_counterexample :
    (NavState.mk "a" "b//c" "r" "p" "" [] [] true).owner ≠ ""
    ∧ (NavState.mk "a" "b//c" "r" "p" "" [] [] true).repo ≠ ""
    ∧ parseQueryParams (applyStateToUrl (NavState.mk "a" "b//c" "r" "p" "" [] [] true) [])
        ≠ ParsedParams.mk "a" "b//c" "r" "p" := by
  decide

/-- C9 as amended: the three query parameters round-trip exactly for the
states `load-repository` can build — owner a non-empty string without the
separator, repo a `/`-join of non-empty separator-free segments — while
`ref` and `path` round-trip unconditionally; states whose repo embeds
empty segments are decoded differently. -/
theorem c9_query_roundtrip (st : NavState) (ps : List (String × String))
    (how : '/' ∉ st.owner.data) (ho : st.owner ≠ "")
    (segs : List (List Char)) (hsegs : segs ≠ [])
    (hne : ∀ l ∈ segs, l ≠ []) (hns : ∀ l ∈ segs, '/' ∉ l)
    (hrepo : st.repo.data = List.intercalate ['/'] segs) :
    parseQueryParams (applyStateToUrl st ps)
      = ParsedParams.mk st.owner st.repo st.ref st.path := by
  have hr : st.repo ≠ "" := by
    intro hc
    have hdata : st.repo.data = [] := congrArg String.data hc
    rw [hrepo] at hdata
    exact intercalate_ne_nil segs hsegs hne hdata
  have hfull : (st.owner ++ "/" ++ st.repo).data
      = List.intercalate ['/'] (st.owner.data :: segs) := by
    rw [strDataAppend (st.owner ++ "/") st.repo, strDataAppend st.owner "/"]
    rw [intercalate_cons_ne_nil ['/'] st.owner.data segs hsegs, ← hrepo]
  have hx : ∀ l ∈ st.owner.data :: segs, '/' ∉ l := by
    intro l hl
    rcases List.mem_cons.mp hl with h | h
    · rw [h]; exact how
    · exact hns l h
  have hsplitOn : (st.owner ++ "/" ++ st.repo).data.splitOn '/' = st.owner.data :: segs := by
    rw [hfull]
    exact List.splitOn_intercalate (st.owner.data :: segs) '/' hx (by simp)
  have hjs : jsSplit '/' (st.owner ++ "/" ++ st.repo) = st.owner :: segs.map String.mk := by
    unfold jsSplit
    rw [hsplitOn]
    simp [strMkData]
  have hfilter : (st.owner :: segs.map String.mk).filter (fun s => s ≠ "")
      = st.owner :: segs.map String.mk := by
    apply List.filter_eq_self.mpr
    intro a ha
    have hane : a ≠ "" := by
      rcases List.mem_cons.mp ha with h | h
      · rw [h]; exact ho
      · obtain ⟨l, hl, rfl⟩ := List.mem_map.mp h
        exact strMkNeEmpty l (hne l hl)
    simp [hane]
  have hlen : 2 ≤ (st.owner :: segs.map String.mk).length := by
    have h1 : 0 < segs.length := List.length_pos.mpr hsegs
    simp only [List.length_cons, List.length_map]
    omega
  have hjoin : jsJoinSlash (segs.map String.mk) = st.repo := by
    unfold jsJoinSlash
    rw [List.map_map]
    have hmap : segs.map (String.data ∘ String.mk) = segs := by
      simp [Function.comp_def, strDataMk]
    rw [hmap, ← hrepo, strMkData]
  have hne2 : (st.owner ++ "/" ++ st.repo) ≠ "" := by
    apply strNeEmptyOfDataNeNil
    rw [hfull]
    exact intercalate_ne_nil _ (by simp) (by
      intro l hl
      rcases List.mem_cons.mp hl with h | h
      · rw [h]; exact strDataNeNil st.owner ho
      · exact hne l h)
  unfold parseQueryParams
  simp only [assocGet_apply_repo st ps ho hr, assocGet_apply_ref st ps,
    assocGet_apply_path st ps, Option.getD_some,
    getD_if_none_some (st.ref = "") st.ref (fun h => h),
    getD_if_none_some (st.path = "") st.path (fun h => h)]
  rw [if_pos hne2]
  rw [hjs, hfilter, if_pos hlen]
  simp only [List.headD_cons, List.drop_one, List.tail_cons]
  rw [hjoin]

/-- Witness for C9's amended round-trip at the state `load-repository`
would build for input `a/b/c`. -/
theorem c9_witness :
    '/' ∉ ("a" : String).data
    ∧ ("a" : String) ≠ ""
    ∧ ([['b'], ['c']] : List (List Char)) ≠ []
    ∧ (∀ l ∈ ([['b'], ['c']] : List (List Char)), l ≠ [])
    ∧ (∀ l ∈ ([['b'], ['c']] : List (List Char)), '/' ∉ l)
    ∧ ("b/c" : String).data = List.intercalate ['/'] [['b'], ['c']]
    ∧ parseQueryParams (applyStateToUrl (NavState.mk "a" "b/c" "r" "p" "" [] [] true) [])
        = ParsedParams.mk "a" "b/c" "r" "p" :=
  ⟨by decide, by decide, by decide, by decide, by decide, by decide,
   c9_query_roundtrip (NavState.mk "a" "b/c" "r" "p" "" [] [] true) [] (by decide) (by decide)
     [['b'], ['c']] (by decide) (by decide) (by decide) (by decide)⟩

/-- Witness for C7 on the empty listing-cache shape with a concrete key. -/
theorem c7_witness :
    getOrFill ((getOrFill ([] : List (String × Nat)) "o/r:main:" (Except.ok 1)).2) "o/r:main:"
        (Except.ok 2)
      = ((getOrFill ([] : List (String × Nat)) "o/r:main:" (Except.ok 1)).1,
         (getOrFill ([] : List (String × Nat)) "o/r:main:" (Except.ok 1)).2)
    ∧ (assocGet ([] : List (String × Nat)) "k" = none
       ∧ getOrFill ([] : List (String × Nat)) "k" (Except.error "boom") = (Except.error "boom", []))
    ∧ getOrFill ((getOrFill ([] : List (String × Nat)) "k" (Except.error "boom")).2) "k"
        (Except.ok 3)
      = getOrFill ([] : List (String × Nat)) "k" (Except.ok 3) :=
  ⟨c7_cache_get_or_fill.1 [] "o/r:main:" 1 (Except.ok 2),
   ⟨by decide, c7_cache_get_or_fill.2.1 [] "k" "boom" (by decide)⟩,
   c7_cache_get_or_fill.2.2 [] "k" "boom" (Except.ok 3) (by decide)⟩

end Preview
